import Mathlib

/-!
Verification of the identification-and-attendance core of the
`DBMS_attendance_management` repository against its natural-language
specification.

The Python sources are shallowly embedded in Lean: float arithmetic is
idealised as real arithmetic (`ℝ`), numpy 1-D arrays become `List ℝ`,
Python dicts become association lists kept in insertion order, and every
fallible operation either returns `Option` or receives an explicit success
flag standing for its try/except outcome.
-/

namespace AttendanceCore

/-! ## Consensus engine (src/app.py, `attendance_recognize`)

`attendance_recognize` collects one prediction per successfully decoded
frame into the list `preds` (`some sid` when `predict_student_id` matched a
student, `none` when it returned `None`), then takes
`Counter(preds).most_common(1)[0]` and accepts only a non-`None` id whose
count exceeds `len(preds) // 2`. -/

/-- A per-frame prediction as appended to `preds`. -/
abbrev Verdict := Option ℕ

/-- `Counter(preds)[v]`: the number of occurrences of verdict `v`. -/
def vcount (v : Verdict) (preds : List Verdict) : ℕ :=
  preds.countP (fun x => x == v)

/-- The distinct elements of a verdict list in order of first occurrence:
the key order of `collections.Counter` (dict insertion order). `seen` holds
the keys already emitted. -/
def distinctKeys (seen : List Verdict) : List Verdict → List Verdict
  | [] => []
  | x :: xs => if x ∈ seen then distinctKeys seen xs else x :: distinctKeys (x :: seen) xs

/-- One step of selecting the most common key: the current best is kept
unless the next key has a strictly greater count, so among keys of equal
count the first-inserted one wins, exactly as `Counter.most_common` (which
is stable) behaves. -/
def betterKey (preds : List Verdict) (best : Option Verdict) (k : Verdict) : Option Verdict :=
  match best with
  | none => some k
  | some b => if vcount b preds < vcount k preds then some k else some b

/-- `Counter(preds).most_common(1)[0][0]`: the first-inserted key of maximal
count (`none` only when `preds` is empty). -/
def mostCommonKey (preds : List Verdict) : Option Verdict :=
  (distinctKeys [] preds).foldl (betterKey preds) none

/-- The majority vote of `attendance_recognize` (src/app.py): an empty
`preds` is rejected up front (`'bad image frames'`); otherwise the most
common verdict `best_id` with count `best_count` is accepted iff
`best_id is not None` and `best_count > len(preds) // 2`. -/
def attendance_consensus (preds : List Verdict) : Option ℕ :=
  if preds.isEmpty then none
  else
    match mostCommonKey preds with
    | none => none
    | some none => none
    | some (some b) => if preds.length / 2 < vcount (some b) preds then some b else none

theorem vcount_cons (v x : Verdict) (l : List Verdict) :
    vcount v (x :: l) = (if x = v then 1 else 0) + vcount v l := by
  by_cases h : x = v <;> simp [vcount, List.countP_cons, h, Nat.add_comm]

theorem vcount_pos_of_mem {v : Verdict} {l : List Verdict} (h : v ∈ l) : 0 < vcount v l := by
  induction l with
  | nil => cases h
  | cons x xs ih =>
    rcases List.mem_cons.mp h with h' | h'
    · subst h'; simp [vcount_cons]
    · have := ih h'
      rw [vcount_cons]
      omega

theorem vcount_le_length (v : Verdict) (l : List Verdict) : vcount v l ≤ l.length :=
  List.countP_le_length _

theorem vcount_add_vcount_le {a b : Verdict} (hab : a ≠ b) (l : List Verdict) :
    vcount a l + vcount b l ≤ l.length := by
  induction l with
  | nil => simp [vcount]
  | cons x xs ih =>
    rw [vcount_cons, vcount_cons, List.length_cons]
    by_cases hxa : x = a
    · rw [if_pos hxa, if_neg (by rw [hxa]; exact hab)]
      omega
    · rw [if_neg hxa]
      by_cases hxb : x = b
      · rw [if_pos hxb]
        omega
      · rw [if_neg hxb]
        omega

theorem mem_distinctKeys (a : Verdict) :
    ∀ (l seen : List Verdict), a ∈ distinctKeys seen l ↔ a ∈ l ∧ a ∉ seen := by
  intro l
  induction l with
  | nil => intro seen; simp [distinctKeys]
  | cons x xs ih =>
    intro seen
    by_cases hx : x ∈ seen
    · rw [distinctKeys, if_pos hx, ih]
      constructor
      · rintro ⟨h1, h2⟩
        exact ⟨List.mem_cons_of_mem _ h1, h2⟩
      · rintro ⟨h1, h2⟩
        rcases List.mem_cons.mp h1 with h1 | h1
        · exact absurd (h1 ▸ hx) h2
        · exact ⟨h1, h2⟩
    · rw [distinctKeys, if_neg hx]
      constructor
      · intro h
        rcases List.mem_cons.mp h with h | h
        · exact ⟨h ▸ List.mem_cons_self x xs, h ▸ hx⟩
        · have := (ih (x :: seen)).mp h
          exact ⟨List.mem_cons_of_mem _ this.1, fun hs => this.2 (List.mem_cons_of_mem _ hs)⟩
      · rintro ⟨h1, h2⟩
        rcases List.mem_cons.mp h1 with h1 | h1
        · exact h1 ▸ List.mem_cons_self _ _
        · by_cases hax : a = x
          · exact hax ▸ List.mem_cons_self _ _
          · exact List.mem_cons_of_mem _ ((ih (x :: seen)).mpr
              ⟨h1, fun hs => (List.mem_cons.mp hs).elim hax h2⟩)

theorem betterKey_spec (preds : List Verdict) (acc : Option Verdict) (k : Verdict) :
    ∃ m, betterKey preds acc k = some m ∧ (m = k ∨ acc = some m) ∧
      vcount k preds ≤ vcount m preds ∧
      (∀ a, acc = some a → vcount a preds ≤ vcount m preds) := by
  cases acc with
  | none =>
    exact ⟨k, rfl, Or.inl rfl, le_refl _, by rintro a ⟨⟩⟩
  | some a0 =>
    by_cases hlt : vcount a0 preds < vcount k preds
    · refine ⟨k, ?_, Or.inl rfl, le_refl _, ?_⟩
      · simp only [betterKey]
        rw [if_pos hlt]
      · rintro a ha
        cases ha
        exact le_of_lt hlt
    · refine ⟨a0, ?_, Or.inr rfl, le_of_not_lt hlt, ?_⟩
      · simp only [betterKey]
        rw [if_neg hlt]
      · rintro a ha
        cases ha
        exact le_refl _

theorem foldl_betterKey_eq_none {preds : List Verdict} :
    ∀ (ks : List Verdict) (acc : Option Verdict),
      ks.foldl (betterKey preds) acc = none → acc = none ∧ ks = [] := by
  intro ks
  induction ks with
  | nil => intro acc h; exact ⟨h, rfl⟩
  | cons k ks ih =>
    intro acc h
    rw [List.foldl_cons] at h
    obtain ⟨m, hm, -, -, -⟩ := betterKey_spec preds acc k
    rw [hm] at h
    cases (ih _ h).1

theorem foldl_betterKey_sound {preds : List Verdict} :
    ∀ (ks : List Verdict) (acc : Option Verdict) (b : Verdict),
      ks.foldl (betterKey preds) acc = some b →
        (acc = some b ∨ b ∈ ks) ∧
        (∀ k ∈ ks, vcount k preds ≤ vcount b preds) ∧
        (∀ a, acc = some a → vcount a preds ≤ vcount b preds) := by
  intro ks
  induction ks with
  | nil =>
    intro acc b h
    refine ⟨Or.inl h, by simp, ?_⟩
    intro a ha
    rw [ha] at h
    cases h
    exact le_refl _
  | cons k ks ih =>
    intro acc b h
    rw [List.foldl_cons] at h
    obtain ⟨m, hm, hmk, hkm, haccm⟩ := betterKey_spec preds acc k
    rw [hm] at h
    obtain ⟨hmem, hmax, hacc⟩ := ih (some m) b h
    have hmb : vcount m preds ≤ vcount b preds := hacc m rfl
    refine ⟨?_, ?_, ?_⟩
    · rcases hmem with hmm | hmm
      · rcases hmk with h' | h'
        · cases hmm
          exact Or.inr (h' ▸ List.mem_cons_self _ _)
        · cases hmm
          exact Or.inl h'
      · exact Or.inr (List.mem_cons_of_mem _ hmm)
    · intro j hj
      rcases List.mem_cons.mp hj with hj | hj
      · exact hj ▸ (hkm.trans hmb)
      · exact hmax j hj
    · intro a ha
      exact (haccm a ha).trans hmb

theorem mostCommonKey_eq_none {preds : List Verdict} (h : mostCommonKey preds = none) :
    preds = [] := by
  unfold mostCommonKey at h
  have h2 := (foldl_betterKey_eq_none _ _ h).2
  cases preds with
  | nil => rfl
  | cons x xs =>
    exfalso
    have : x ∈ distinctKeys [] (x :: xs) :=
      (mem_distinctKeys x (x :: xs) []).mpr ⟨List.mem_cons_self _ _, by simp⟩
    rw [h2] at this
    cases this

theorem mostCommonKey_max {preds b} (h : mostCommonKey preds = some b) :
    b ∈ preds ∧ ∀ k ∈ preds, vcount k preds ≤ vcount b preds := by
  unfold mostCommonKey at h
  obtain ⟨hmem, hmax, -⟩ := foldl_betterKey_sound _ _ _ h
  constructor
  · rcases hmem with hm | hm
    · cases hm
    · exact ((mem_distinctKeys b preds []).mp hm).1
  · intro k hk
    exact hmax k ((mem_distinctKeys k preds []).mpr ⟨hk, by simp⟩)

/-- The exact acceptance condition of the consensus vote: a student id `a`
is the decision iff the `some a` bucket holds a strict majority of the
collected predictions. -/
theorem consensus_eq_some_iff (preds : List Verdict) (a : ℕ) :
    attendance_consensus preds = some a ↔ preds.length / 2 < vcount (some a) preds := by
  constructor
  · intro h
    unfold attendance_consensus at h
    split at h
    · cases h
    · split at h
      · cases h
      · cases h
      · rename_i b hb
        split at h
        · cases h
          assumption
        · cases h
  · intro h
    have hpos : 0 < vcount (some a) preds := by
      have := Nat.zero_le (preds.length / 2)
      omega
    have hmem : (some a : Verdict) ∈ preds := by
      by_contra hmm
      have : vcount (some a) preds = 0 := by
        unfold vcount
        rw [List.countP_eq_zero]
        intro x hx
        simp only [beq_iff_eq]
        intro hxa
        exact hmm (hxa ▸ hx)
      omega
    have hne : ¬ preds.isEmpty := by
      cases preds with
      | nil => cases hmem
      | cons x xs => simp
    obtain ⟨b, hb⟩ : ∃ b, mostCommonKey preds = some b := by
      cases hmc : mostCommonKey preds with
      | none =>
        exfalso
        rw [mostCommonKey_eq_none hmc] at hmem
        cases hmem
      | some b => exact ⟨b, rfl⟩
    obtain ⟨hbmem, hbmax⟩ := mostCommonKey_max hb
    have hab : vcount (some a) preds ≤ vcount b preds := hbmax _ hmem
    have hba : b = some a := by
      by_contra hne'
      have hsum : vcount b preds + vcount (some a) preds ≤ preds.length :=
        vcount_add_vcount_le hne' preds
      have h2 : preds.length < vcount (some a) preds * 2 :=
        (Nat.div_lt_iff_lt_mul (by norm_num)).mp h
      omega
    subst hba
    unfold attendance_consensus
    rw [if_neg hne, hb]
    show (if preds.length / 2 < vcount (some a) preds then some a else none) = some a
    rw [if_pos h]

/-- C1: for every sequence of per-frame verdicts, the consensus accepts a
candidate iff the candidate is a real student id (`some a`, never the
`none` bucket) whose count is strictly greater than `n // 2` of the counted
verdicts; moreover `[A, A, B]` accepts A, `[A, B, none]` rejects,
`[A, A, B, B]` rejects, and the empty verdict list rejects immediately. -/
theorem consensus_strict_majority :
    (∀ (preds : List Verdict) (a : ℕ),
        attendance_consensus preds = some a ↔ preds.length / 2 < vcount (some a) preds)
    ∧ attendance_consensus [some 1, some 1, some 2] = some 1
    ∧ attendance_consensus [some 1, some 2, none] = none
    ∧ attendance_consensus [some 1, some 1, some 2, some 2] = none
    ∧ attendance_consensus [] = none :=
  ⟨consensus_eq_some_iff, by decide, by decide, by decide, rfl⟩

/-! ## Per-frame processing in the recognition burst (src/app.py)

The loop over uploaded frames in `attendance_recognize`, one constructor
per code path:
* `decodeFail` — `cv2.imdecode` returned `None`; the loop `continue`s and
  nothing is appended to `preds`;
* `extractFail` — the frame decoded but `_compute_embedding` returned
  `None` inside `predict_student_id` (src/face_recog.py), which therefore
  returns `None`: `preds.append(None)`;
* `matched v` — `predict_student_id` ran the matcher and returned `v`
  (`some sid` or `none` for no match): `preds.append(v)`. -/
inductive FrameCase
  | decodeFail
  | extractFail
  | matched (v : Verdict)
deriving DecidableEq

/-- What one frame contributes to `preds`: `none` means the frame is
skipped by the `continue`, `some p` means `p` is appended. -/
def framePred : FrameCase → Option Verdict
  | .decodeFail => none
  | .extractFail => some none
  | .matched v => some v

/-- The `preds` list built by the frame loop. -/
def collectPreds (fs : List FrameCase) : List Verdict :=
  fs.filterMap framePred

/-- The whole multi-frame decision of `attendance_recognize`: build `preds`
from the frames, then take the majority vote. -/
def recognizeFrames (fs : List FrameCase) : Option ℕ :=
  attendance_consensus (collectPreds fs)

/-- Reading of the claim's counting rule (NOT the code's): frames that fail
to decode OR whose extraction fails are both skipped before counting, so
only actual matcher verdicts are counted. The code instead appends a `None`
prediction for an extraction failure. -/
def collectPredsClaim (fs : List FrameCase) : List Verdict :=
  fs.filterMap fun f =>
    match f with
    | .decodeFail => none
    | .extractFail => none
    | .matched v => some v

theorem length_collectPreds (fs : List FrameCase) :
    (collectPreds fs).length = fs.countP (fun f => !(f == FrameCase.decodeFail)) := by
  induction fs with
  | nil => rfl
  | cons f fs ih =>
    rw [List.countP_cons]
    cases f with
    | decodeFail =>
      have h1 : collectPreds (FrameCase.decodeFail :: fs) = collectPreds fs := rfl
      rw [h1, ih]
      simp
    | extractFail =>
      have h1 : collectPreds (FrameCase.extractFail :: fs) = (none : Verdict) :: collectPreds fs :=
        rfl
      rw [h1, List.length_cons, ih]
      simp
    | matched v =>
      have h1 : collectPreds (FrameCase.matched v :: fs) = v :: collectPreds fs := rfl
      rw [h1, List.length_cons, ih]
      simp

theorem vcount_collectPreds (fs : List FrameCase) (a : ℕ) :
    vcount (some a) (collectPreds fs) =
      fs.countP (fun f => f == FrameCase.matched (some a)) := by
  induction fs with
  | nil => rfl
  | cons f fs ih =>
    rw [List.countP_cons]
    cases f with
    | decodeFail =>
      have h1 : collectPreds (FrameCase.decodeFail :: fs) = collectPreds fs := rfl
      rw [h1, ih]
      simp
    | extractFail =>
      have h1 : collectPreds (FrameCase.extractFail :: fs) = (none : Verdict) :: collectPreds fs :=
        rfl
      rw [h1, vcount_cons, ih]
      simp
    | matched v =>
      have h1 : collectPreds (FrameCase.matched v :: fs) = v :: collectPreds fs := rfl
      rw [h1, vcount_cons, ih]
      by_cases hv : v = some a
      · subst hv
        simp [Nat.add_comm]
      · rw [if_neg hv]
        have h2 : (FrameCase.matched v == FrameCase.matched (some a)) = false := by
          simpa using hv
        rw [h2]
        simp

theorem collectPreds_replicate_decodeFail (k : ℕ) :
    collectPreds (List.replicate k FrameCase.decodeFail) = [] := by
  induction k with
  | zero => rfl
  | succ k ih =>
    rw [List.replicate_succ]
    exact ih

/-- C4 (amended): what the frame loop actually counts. A frame that fails
to decode is skipped with no exception and contributes nothing; but a
decoded frame whose extraction fails contributes a `None` prediction, so it
counts toward `n` (and toward the `None` bucket). The decision is `some a`
iff the frames matched to `a` outnumber half of ALL decoded frames
(extraction failures included); an all-undecodable burst yields "no match"
immediately, and two frames `[extractFail, A]` are rejected because the
extraction failure keeps A at half. -/
theorem consensus_counts_decoded_frames :
    (∀ (fs : List FrameCase) (a : ℕ),
        recognizeFrames fs = some a ↔
          (fs.countP (fun f => !(f == FrameCase.decodeFail))) / 2 <
            fs.countP (fun f => f == FrameCase.matched (some a)))
    ∧ (∀ k : ℕ, recognizeFrames (List.replicate k FrameCase.decodeFail) = none)
    ∧ recognizeFrames [FrameCase.extractFail, FrameCase.matched (some 1)] = none := by
  refine ⟨?_, ?_, by decide⟩
  · intro fs a
    rw [recognizeFrames, consensus_eq_some_iff, length_collectPreds, vcount_collectPreds]
  · intro k
    rw [recognizeFrames, collectPreds_replicate_decodeFail]
    rfl

/-- C4 counterexample: the claim says frames whose extraction fails are
skipped before counting (contributing neither to a bucket nor to `n`).
Under that reading the burst `[A, A, extractFail, extractFail,
extractFail]` has `n = 2`, `k = 2 > 2 // 2` and must accept A; the code
instead counts three `None` predictions, making `None` the most common
bucket of `n = 5`, and rejects. -/
theorem consensus_extract_failure_counted_cex :
    attendance_consensus (collectPredsClaim
        [FrameCase.matched (some 1), FrameCase.matched (some 1),
         FrameCase.extractFail, FrameCase.extractFail, FrameCase.extractFail]) = some 1
    ∧ recognizeFrames
        [FrameCase.matched (some 1), FrameCase.matched (some 1),
         FrameCase.extractFail, FrameCase.extractFail, FrameCase.extractFail] = none := by
  constructor <;> decide

/-! ## Matcher (src/face_recog.py, `predict_student_id` lines 131-162)

Float arithmetic is idealised as `ℝ` and numpy 1-D arrays as `List ℝ`, so
the matcher definitions are noncomputable; concrete inputs in the theorems
below are evaluated by rewriting.  The scan keeps `(best_id, best_score,
best_is_cosine)` and a reference whose distance computation raises is
skipped by the `except Exception: continue`. -/

/-- Dimension of embeddings from the primary DeepFace `Facenet512` variant. -/
def NNdim : ℕ := 512

/-- Dimension of embeddings from the fallback variant: a 64×64 grayscale
image flattened (`resized.flatten()`), 4096 entries. -/
def fallbackDim : ℕ := 4096

noncomputable section MatcherModel

open scoped Classical

/-- The literal `1e-8` added to the cosine denominator. -/
def eps : ℝ := 1 / 100000000

/-- `float(np.dot(a, b))` for 1-D vectors of equal length. -/
def dotl (a b : List ℝ) : ℝ := (List.zipWith (· * ·) a b).sum

/-- `np.linalg.norm(v)`: the Euclidean norm `√(Σ vᵢ²)`. -/
def norml (v : List ℝ) : ℝ := Real.sqrt (dotl v v)

/-- numpy's elementwise `ref - e` on 1-D arrays: defined for equal lengths,
broadcast when either operand has a single entry, and otherwise a
`ValueError` (`none`), which the scan's `except` clause turns into
`continue`. -/
def npSub (a b : List ℝ) : Option (List ℝ) :=
  if a.length = b.length then some (List.zipWith (· - ·) a b)
  else if a.length = 1 then some (b.map (fun y => a.headI - y))
  else if b.length = 1 then some (a.map (fun x => x - b.headI))
  else none

/-- `dist = 1.0 - dot(ref, e) / (norm(ref) * norm(e) + 1e-8)`. -/
def cosineDist (ref e : List ℝ) : ℝ :=
  1 - dotl ref e / (norml ref * norml e + eps)

/-- One iteration of the reference scan: the distance and metric tag
(`true` = cosine, `false` = L2) for a (reference, query) pair, or `none`
when the pair is skipped.  The cosine branch is taken exactly when
`ref.shape == e.shape`. -/
def pairDist (ref e : List ℝ) : Option (ℝ × Bool) :=
  if ref.length = e.length then some (cosineDist ref e, true)
  else
    match npSub ref e with
    | some d => some (norml d, false)
    | none => none

/-- Fold step tracking `(best_id, best_score, best_is_cosine)`; `none`
stands for the initial `best_id = None, best_score = inf` state (any
finite distance beats `inf`, and every computed distance is finite). -/
def stepBest (e : List ℝ) (acc : Option (ℕ × ℝ × Bool)) (sr : ℕ × List ℝ) :
    Option (ℕ × ℝ × Bool) :=
  match pairDist sr.2 e with
  | none => acc
  | some (d, c) =>
    match acc with
    | none => some (sr.1, d, c)
    | some (b, s, bc) => if d < s then some (sr.1, d, c) else some (b, s, bc)

/-- The linear scan over the reference set (insertion-ordered, as the
Python dict iterates). -/
def scanBest (refs : List (ℕ × List ℝ)) (e : List ℝ) : Option (ℕ × ℝ × Bool) :=
  refs.foldl (stepBest e) none

/-- The matcher verdict: the nearest reference, rejected (`None`) when its
distance exceeds the threshold of its own metric
(`threshold_nn = 0.35` / `threshold_fallback = 0.6` by default). Total by
construction: every failure path yields `none`, never an exception. -/
def predictFromRefs (refs : List (ℕ × List ℝ)) (e : List ℝ)
    (threshold_nn threshold_fallback : ℝ) : Option ℕ :=
  match scanBest refs e with
  | none => none
  | some (b, s, c) =>
    if c then (if threshold_nn < s then none else some b)
    else (if threshold_fallback < s then none else some b)

end MatcherModel

theorem pairDist_eq_cosine {ref e : List ℝ} (h : ref.length = e.length) :
    pairDist ref e = some (cosineDist ref e, true) := by
  unfold pairDist
  rw [if_pos h]

theorem npSub_eq_none {a b : List ℝ} (h : a.length ≠ b.length)
    (ha : a.length ≠ 1) (hb : b.length ≠ 1) : npSub a b = none := by
  unfold npSub
  rw [if_neg h, if_neg ha, if_neg hb]

theorem pairDist_eq_none {ref e : List ℝ} (h : ref.length ≠ e.length)
    (ha : ref.length ≠ 1) (hb : e.length ≠ 1) : pairDist ref e = none := by
  unfold pairDist
  rw [if_neg h, npSub_eq_none h ha hb]

theorem foldl_stepBest_sound {e : List ℝ} :
    ∀ (refs : List (ℕ × List ℝ)) (acc : Option (ℕ × ℝ × Bool)) (b : ℕ) (s : ℝ) (c : Bool),
      refs.foldl (stepBest e) acc = some (b, s, c) →
        acc = some (b, s, c) ∨ ∃ ref, (b, ref) ∈ refs ∧ pairDist ref e = some (s, c) := by
  intro refs
  induction refs with
  | nil => intro acc b s c h; exact Or.inl h
  | cons sr refs ih =>
    intro acc b s c h
    rw [List.foldl_cons] at h
    rcases ih _ _ _ _ h with hacc | ⟨ref, hmem, hpd⟩
    · cases hpd : pairDist sr.2 e with
      | none =>
        simp only [stepBest, hpd] at hacc
        exact Or.inl hacc
      | some dc =>
        obtain ⟨d, cc⟩ := dc
        simp only [stepBest, hpd] at hacc
        cases acc with
        | none =>
          dsimp only at hacc
          cases hacc
          exact Or.inr ⟨sr.2, List.mem_cons_self _ _, hpd⟩
        | some bsc =>
          obtain ⟨b0, s0, c0⟩ := bsc
          dsimp only at hacc
          by_cases hlt : d < s0
          · rw [if_pos hlt] at hacc
            cases hacc
            exact Or.inr ⟨sr.2, List.mem_cons_self _ _, hpd⟩
          · rw [if_neg hlt] at hacc
            exact Or.inl hacc
    · exact Or.inr ⟨ref, List.mem_cons_of_mem _ hmem, hpd⟩

theorem scanBest_winner {refs : List (ℕ × List ℝ)} {e : List ℝ} {b : ℕ} {s : ℝ} {c : Bool}
    (h : scanBest refs e = some (b, s, c)) :
    ∃ ref, (b, ref) ∈ refs ∧ pairDist ref e = some (s, c) := by
  rcases foldl_stepBest_sound refs none b s c h with h' | h'
  · cases h'
  · exact h'

theorem predictFromRefs_eq_some_iff (refs : List (ℕ × List ℝ)) (e : List ℝ)
    (t1 t2 : ℝ) (b : ℕ) :
    predictFromRefs refs e t1 t2 = some b ↔
      ∃ s c, scanBest refs e = some (b, s, c) ∧ s ≤ (if c then t1 else t2) := by
  unfold predictFromRefs
  cases hs : scanBest refs e with
  | none =>
    simp
  | some bsc =>
    obtain ⟨b0, s0, c0⟩ := bsc
    have hinj : ∀ s : ℝ, ∀ c : Bool,
        ((some (b0, s0, c0) : Option (ℕ × ℝ × Bool)) = some (b, s, c)) ↔
          (b0 = b ∧ s0 = s ∧ c0 = c) := by
      intro s c
      rw [Option.some.injEq, Prod.mk.injEq, Prod.mk.injEq]
    cases c0 with
    | true =>
      show (if t1 < s0 then none else some b0) = some b ↔ _
      by_cases hlt : t1 < s0
      · rw [if_pos hlt]
        constructor
        · rintro ⟨⟩
        · rintro ⟨s, c, hsc, hle⟩
          obtain ⟨-, hss, hcc⟩ := (hinj s c).mp hsc
          subst hss
          subst hcc
          rw [if_pos rfl] at hle
          exact absurd hle (not_le.mpr hlt)
      · rw [if_neg hlt]
        constructor
        · intro h
          rw [Option.some.injEq] at h
          subst h
          exact ⟨s0, true, rfl, by rw [if_pos rfl]; exact le_of_not_lt hlt⟩
        · rintro ⟨s, c, hsc, -⟩
          exact congrArg some ((hinj s c).mp hsc).1
    | false =>
      show (if t2 < s0 then none else some b0) = some b ↔ _
      by_cases hlt : t2 < s0
      · rw [if_pos hlt]
        constructor
        · rintro ⟨⟩
        · rintro ⟨s, c, hsc, hle⟩
          obtain ⟨-, hss, hcc⟩ := (hinj s c).mp hsc
          subst hss
          subst hcc
          rw [if_neg (by simp)] at hle
          exact absurd hle (not_le.mpr hlt)
      · rw [if_neg hlt]
        constructor
        · intro h
          rw [Option.some.injEq] at h
          subst h
          exact ⟨s0, false, rfl, by rw [if_neg (by simp)]; exact le_of_not_lt hlt⟩
        · rintro ⟨s, c, hsc, -⟩
          exact congrArg some ((hinj s c).mp hsc).1

theorem predictFromRefs_winner_mem {refs : List (ℕ × List ℝ)} {e : List ℝ}
    {t1 t2 : ℝ} {b : ℕ} (h : predictFromRefs refs e t1 t2 = some b) :
    ∃ ref, (b, ref) ∈ refs := by
  obtain ⟨s, c, hsc, -⟩ := (predictFromRefs_eq_some_iff refs e t1 t2 b).mp h
  obtain ⟨ref, hmem, -⟩ := scanBest_winner hsc
  exact ⟨ref, hmem⟩

theorem eps_pos : 0 < eps := by
  unfold eps
  norm_num

theorem dotl_self_nonneg (v : List ℝ) : 0 ≤ dotl v v := by
  induction v with
  | nil => simp [dotl]
  | cons x xs ih =>
    have hx : 0 ≤ x * x := mul_self_nonneg x
    have h1 : dotl (x :: xs) (x :: xs) = x * x + dotl xs xs := by
      simp [dotl]
    rw [h1]
    exact add_nonneg hx ih

theorem norml_mul_self (v : List ℝ) : norml v * norml v = dotl v v :=
  Real.mul_self_sqrt (dotl_self_nonneg v)

theorem cosineDist_self (e : List ℝ) : cosineDist e e = eps / (dotl e e + eps) := by
  unfold cosineDist
  rw [norml_mul_self]
  have hpos : 0 < dotl e e + eps := by
    have := dotl_self_nonneg e
    have := eps_pos
    linarith
  field_simp

theorem cosineDist_self_pos (e : List ℝ) : 0 < cosineDist e e := by
  rw [cosineDist_self]
  have h1 : 0 < dotl e e + eps := by
    have := dotl_self_nonneg e
    have := eps_pos
    linarith
  exact div_pos eps_pos h1

theorem scanBest_singleton {sid : ℕ} {r e : List ℝ} {d : ℝ} {c : Bool}
    (h : pairDist r e = some (d, c)) : scanBest [(sid, r)] e = some (sid, d, c) := by
  unfold scanBest
  rw [List.foldl_cons, List.foldl_nil]
  simp only [stepBest, h]

/-- C5: the matcher accepts the winning nearest candidate only if its
distance is within the threshold of the winner's own metric (cosine 0.35,
L2 0.60 — the defaults of `predict_student_id`), otherwise it returns
"no match" even though a nearest candidate exists; for the empty reference
set it returns "no match" for every query and threshold pair (and, being a
total function, never an error). -/
theorem matcher_threshold_acceptance :
    (∀ (e : List ℝ) (t1 t2 : ℝ), predictFromRefs [] e t1 t2 = none)
    ∧ (∀ (refs : List (ℕ × List ℝ)) (e : List ℝ) (b : ℕ),
        predictFromRefs refs e (35 / 100) (6 / 10) = some b ↔
          ∃ s c, scanBest refs e = some (b, s, c) ∧
            s ≤ (if c then (35 / 100 : ℝ) else 6 / 10)) :=
  ⟨fun _ _ _ => rfl, fun refs e b => predictFromRefs_eq_some_iff refs e _ _ b⟩

/-- C3 (amended): the scan picks the cosine metric exactly when reference
and query have EQUAL shapes — whether or not that shape is the
NN-embedding shape, so two same-shape fallback embeddings are also
compared by cosine distance; for genuinely mismatched shapes (neither a
1-element broadcastable array) the `ref - e` computation raises and the
`except` clause skips the pair entirely, so no L2 distance is produced for
it; the threshold applied to the winner is the one matching the winner's
own metric tag. -/
theorem matcher_metric_by_shape :
    (∀ ref e : List ℝ, ref.length = e.length →
        pairDist ref e = some (cosineDist ref e, true))
    ∧ (∀ ref e : List ℝ, ref.length ≠ e.length → ref.length ≠ 1 → e.length ≠ 1 →
        pairDist ref e = none)
    ∧ (∀ (refs : List (ℕ × List ℝ)) (e : List ℝ) (t1 t2 : ℝ) (b : ℕ) (s : ℝ) (c : Bool),
        scanBest refs e = some (b, s, c) →
          predictFromRefs refs e t1 t2 =
            if (if c then t1 else t2) < s then none else some b) := by
  refine ⟨fun ref e h => pairDist_eq_cosine h,
    fun ref e h ha hb => pairDist_eq_none h ha hb, ?_⟩
  intro refs e t1 t2 b s c h
  unfold predictFromRefs
  rw [h]
  cases c with
  | true => rfl
  | false => rfl

/-- C3 counterexample: the claim says cosine is used exactly when the pair
shares the NN-embedding shape and that fallback-shape embeddings get the
L2 metric.  But for a fallback-shape reference and a fallback-shape query
(both of length 4096 ≠ 512 = NNdim) the shapes are equal, so the code
computes the cosine distance and tags the pair as cosine (`true`), not L2. -/
theorem matcher_metric_fallback_pair_cex :
    scanBest [(1, List.replicate fallbackDim (1 : ℝ))] (List.replicate fallbackDim (1 : ℝ))
        = some (1, cosineDist (List.replicate fallbackDim (1 : ℝ))
            (List.replicate fallbackDim (1 : ℝ)), true)
    ∧ fallbackDim ≠ NNdim := by
  constructor
  · exact scanBest_singleton (pairDist_eq_cosine rfl)
  · decide

/-- C9: embeddings of the two extractor variants (shapes 512 and 4096) are
never compared against each other: a cross-variant (reference, query) pair
makes the subtraction raise, the `except` clause skips that reference
(contributing no candidate — "no match" for that reference rather than an
error), and consequently an id whose stored references are all
cross-variant with the query can never be the matcher's winner; the
matcher itself is a total function and returns a value on every input. -/
theorem matcher_cross_variant_skipped :
    (∀ ref e : List ℝ,
        (ref.length = NNdim ∨ ref.length = fallbackDim) →
        (e.length = NNdim ∨ e.length = fallbackDim) →
        ref.length ≠ e.length → pairDist ref e = none)
    ∧ (∀ (refs : List (ℕ × List ℝ)) (e : List ℝ) (t1 t2 : ℝ) (sid : ℕ),
        (∀ ref, (sid, ref) ∈ refs → pairDist ref e = none) →
        predictFromRefs refs e t1 t2 ≠ some sid) := by
  constructor
  · intro ref e hr he hne
    have ha : ref.length ≠ 1 := by
      rcases hr with h | h <;> rw [h] <;> decide
    have hb : e.length ≠ 1 := by
      rcases he with h | h <;> rw [h] <;> decide
    exact pairDist_eq_none hne ha hb
  · intro refs e t1 t2 sid hall h
    obtain ⟨s, c, hsc, -⟩ := (predictFromRefs_eq_some_iff refs e t1 t2 sid).mp h
    obtain ⟨ref, hmem, hpd⟩ := scanBest_winner hsc
    rw [hall ref hmem] at hpd
    cases hpd

/-- C8 (amended): matching a query equal to the enrolled embedding `E`
(same shape) yields cosine distance `ε / (⟨E,E⟩ + ε)` with `ε = 1e-8` —
strictly positive, not exactly 0, because of the `1e-8` guard in the
denominator — and the singleton match is accepted iff the cosine threshold
is at least that value (so for every threshold ≥ `ε / (⟨E,E⟩ + ε)`, in
particular the default 0.35 for any reasonably sized embedding, but NOT
for every threshold ≥ 0). -/
theorem matcher_self_match_epsilon :
    ∀ e : List ℝ,
      pairDist e e = some (eps / (dotl e e + eps), true)
      ∧ 0 < eps / (dotl e e + eps)
      ∧ (∀ (sid : ℕ) (t1 t2 : ℝ),
          predictFromRefs [(sid, e)] e t1 t2 = some sid ↔
            eps / (dotl e e + eps) ≤ t1) := by
  intro e
  have hd := cosineDist_self e
  have hp : pairDist e e = some (eps / (dotl e e + eps), true) := by
    rw [pairDist_eq_cosine rfl, hd]
  refine ⟨hp, by rw [← hd]; exact cosineDist_self_pos e, ?_⟩
  intro sid t1 t2
  rw [predictFromRefs_eq_some_iff]
  constructor
  · rintro ⟨s, c, hsc, hle⟩
    rw [scanBest_singleton hp, Option.some.injEq, Prod.mk.injEq, Prod.mk.injEq] at hsc
    obtain ⟨-, hss, hcc⟩ := hsc
    subst hss
    subst hcc
    rw [if_pos rfl] at hle
    exact hle
  · intro hle
    exact ⟨_, true, scanBest_singleton hp, by rw [if_pos rfl]; exact hle⟩

/-- C8 counterexample: enrolling id 7 with embedding `[1, 0]` and querying
the identical embedding does NOT give cosine distance exactly 0 — the
distance is `ε / (1 + ε) > 0` — and with threshold 0 (which is ≥ 0, so the
claim demands acceptance) the matcher rejects and returns "no match". -/
theorem matcher_self_distance_not_zero_cex :
    0 < cosineDist [(1 : ℝ), 0] [(1 : ℝ), 0]
    ∧ predictFromRefs [(7, [(1 : ℝ), 0])] [(1 : ℝ), 0] 0 0 = none := by
  constructor
  · exact cosineDist_self_pos _
  · have hp : pairDist [(1 : ℝ), 0] [(1 : ℝ), 0]
        = some (cosineDist [(1 : ℝ), 0] [(1 : ℝ), 0], true) := pairDist_eq_cosine rfl
    have hscan : scanBest [(7, [(1 : ℝ), 0])] [(1 : ℝ), 0]
        = some (7, cosineDist [(1 : ℝ), 0] [(1 : ℝ), 0], true) := scanBest_singleton hp
    unfold predictFromRefs
    rw [hscan]
    show (if (0 : ℝ) < cosineDist [(1 : ℝ), 0] [(1 : ℝ), 0] then none else some 7) = none
    rw [if_pos (cosineDist_self_pos _)]

/-! ## Embedding store and cache (src/face_recog.py `FaceService`,
src/app.py `delete_student_profile`)

The durable stores are the local `data/embeddings/*.npy` directory and the
optional Supabase `face_embeddings` table; the in-memory cache is
`self._emb_cache` (`none` = invalidated).  Each remote operation's
try/except outcome is an explicit Boolean argument. -/

structure FaceState where
  /-- `data/embeddings/{sid}.npy` files, as (student id, embedding). -/
  localFiles : List (ℕ × List ℝ)
  /-- Rows of the Supabase `face_embeddings` table. -/
  remoteRows : List (ℕ × List ℝ)
  /-- `self._emb_cache`: `none` when invalidated / not yet built. -/
  cache : Option (List (ℕ × List ℝ))
  /-- Whether `self.supabase is not None`. -/
  hasSupabase : Bool

/-- Replace the entry for `sid` (as `np.save` over an existing file, or the
Supabase upsert, both do) or append a fresh one. -/
def upsertRef (l : List (ℕ × List ℝ)) (sid : ℕ) (e : List ℝ) : List (ℕ × List ℝ) :=
  if l.any (fun p => p.1 == sid) then l.map (fun p => if p.1 == sid then (sid, e) else p)
  else l ++ [(sid, e)]

/-- The argument of `enroll_from_path`, one constructor per early-return
path of the code: `cv2` missing, empty path, `cv2.imread` returning
`None`, `_compute_embedding` returning `None`, or a computed embedding. -/
inductive EnrollInput
  | noCV2
  | emptyPath
  | unreadableImage
  | noEmbedding
  | embedding (e : List ℝ)

/-- `FaceService.enroll_from_path` (src/face_recog.py lines 56-88):
returns `False` on the four failure paths; otherwise best-effort local
save (`try: np.save ... except: pass`, success = `localSaveOk`),
best-effort remote upsert when Supabase is configured (success =
`remoteUpsertOk`) that also invalidates the cache on success, and finally
`True`. -/
def enroll_from_path (st : FaceState) (sid : ℕ) (inp : EnrollInput)
    (localSaveOk remoteUpsertOk : Bool) : FaceState × Bool :=
  match inp with
  | .embedding e =>
    let st1 := if localSaveOk then { st with localFiles := upsertRef st.localFiles sid e } else st
    let st2 :=
      if st1.hasSupabase then
        if remoteUpsertOk then
          { st1 with remoteRows := upsertRef st1.remoteRows sid e, cache := none }
        else st1
      else st1
    (st2, true)
  | _ => (st, false)

/-- The embedding-related part of `delete_student_profile` (src/app.py):
unlink `data/embeddings/{sid}.npy` and best-effort delete the Supabase
row; the in-memory cache of `face_service` is never touched. -/
def delete_student_embedding (st : FaceState) (sid : ℕ) (remoteDeleteOk : Bool) : FaceState :=
  let st1 := { st with localFiles := st.localFiles.filter (fun p => !(p.1 == sid)) }
  if st1.hasSupabase && remoteDeleteOk then
    { st1 with remoteRows := st1.remoteRows.filter (fun p => !(p.1 == sid)) }
  else st1

/-- Cache lookup/rebuild of `predict_student_id` (src/face_recog.py lines
101-129): a warm cache is used as-is; a cold cache is rebuilt from the
Supabase table (keeping rows with a nonempty embedding) when configured
and the select succeeds, and from the local files otherwise. -/
def loadRefs (st : FaceState) (remoteSelectOk : Bool) : List (ℕ × List ℝ) :=
  match st.cache with
  | some c => c
  | none =>
    if st.hasSupabase then
      if remoteSelectOk then st.remoteRows.filter (fun p => decide (0 < p.2.length))
      else st.localFiles
    else st.localFiles

/-- `FaceService.predict_student_id` with its default thresholds
(0.35 / 0.6): `none` at once when the frame's embedding cannot be computed,
else rebuild/reuse the cache and run the matcher over it. Returns the
state with the (possibly rebuilt) cache alongside the verdict. -/
noncomputable def predict_student_id (st : FaceState) (frameEmb : Option (List ℝ))
    (remoteSelectOk : Bool) : FaceState × Option ℕ :=
  match frameEmb with
  | none => (st, none)
  | some e =>
    let c := loadRefs st remoteSelectOk
    ({ st with cache := some c }, predictFromRefs c e (35 / 100) (6 / 10))

theorem not_mem_filter_self (l : List (ℕ × List ℝ)) (sid : ℕ) (ref : List ℝ) :
    (sid, ref) ∉ l.filter (fun p => !(p.1 == sid)) := by
  intro h
  rw [List.mem_filter] at h
  simp at h

/-- C2 (amended): the enroll path invalidates the in-memory cache only on
the branch where an embedding was produced, a remote client is configured
and the remote upsert succeeds — an enrollment without a remote client,
one whose remote upsert fails, or one that produced no embedding leaves
the cache (and any stale entry in it) untouched; the profile-deletion
flow removes the local embedding file and best-effort deletes the remote
row but never touches the in-memory cache, so with a warm cache a deleted
identity can still be matched; once the cache is cold the next lookup
reloads from durable storage, after which the deleted identity can no
longer be returned provided no remote client is configured or the
best-effort remote delete succeeded — whereas if a configured remote
delete failed, even a cold-cache reload still returns the deleted
identity (final conjunct). -/
theorem cache_invalidation_behavior :
    (∀ (st : FaceState) (sid : ℕ) (e : List ℝ) (lOk : Bool),
        st.hasSupabase = true →
        (enroll_from_path st sid (.embedding e) lOk true).1.cache = none)
    ∧ (∀ (st : FaceState) (sid : ℕ) (inp : EnrollInput) (lOk rOk : Bool),
        st.hasSupabase = false →
        (enroll_from_path st sid inp lOk rOk).1.cache = st.cache)
    ∧ (∀ (st : FaceState) (sid : ℕ) (inp : EnrollInput) (lOk : Bool),
        (enroll_from_path st sid inp lOk false).1.cache = st.cache)
    ∧ (∀ (st : FaceState) (sid : ℕ) (inp : EnrollInput) (lOk rOk : Bool),
        (∀ e, inp ≠ EnrollInput.embedding e) →
        (enroll_from_path st sid inp lOk rOk).1.cache = st.cache)
    ∧ (∀ (st : FaceState) (sid : ℕ) (rOk : Bool),
        (delete_student_embedding st sid rOk).cache = st.cache)
    ∧ (∀ (st : FaceState) (sid : ℕ) (rOk : Bool) (q : List ℝ) (rsOk : Bool),
        st.cache = none → (st.hasSupabase = false ∨ rOk = true) →
        (predict_student_id (delete_student_embedding st sid rOk) (some q) rsOk).2 ≠ some sid)
    ∧ (predict_student_id
        (delete_student_embedding
          { localFiles := [(5, [(1 : ℝ), 0])], remoteRows := [(5, [(1 : ℝ), 0])],
            cache := none, hasSupabase := true } 5 false)
        (some [(1 : ℝ), 0]) true).2 = some 5 := by
  refine ⟨?_, ?_, ?_, ?_, ?_, ?_, ?_⟩
  · intro st sid e lOk hsup
    obtain ⟨lf, rr, c, hs⟩ := st
    dsimp only at hsup
    subst hsup
    cases lOk <;> rfl
  · intro st sid inp lOk rOk hsup
    obtain ⟨lf, rr, c, hs⟩ := st
    dsimp only at hsup
    subst hsup
    cases inp <;> cases lOk <;> rfl
  · intro st sid inp lOk
    obtain ⟨lf, rr, c, hs⟩ := st
    cases inp <;> cases lOk <;> cases hs <;> rfl
  · intro st sid inp lOk rOk hne
    cases inp with
    | embedding e => exact absurd rfl (hne e)
    | noCV2 => rfl
    | emptyPath => rfl
    | unreadableImage => rfl
    | noEmbedding => rfl
  · intro st sid rOk
    unfold delete_student_embedding
    by_cases hc : (st.hasSupabase && rOk) = true
    · simp [hc]
    · rw [Bool.not_eq_true] at hc
      simp [hc]
  · intro st sid rOk q rsOk hcache hcase h
    obtain ⟨lf, rr, c, hs⟩ := st
    dsimp only at hcache hcase
    subst hcache
    cases hs with
    | false =>
      have hload : loadRefs (delete_student_embedding ⟨lf, rr, none, false⟩ sid rOk) rsOk
          = lf.filter (fun p => !(p.1 == sid)) := rfl
      unfold predict_student_id at h
      dsimp only at h
      rw [hload] at h
      obtain ⟨ref, hmem⟩ := predictFromRefs_winner_mem h
      exact not_mem_filter_self lf sid ref hmem
    | true =>
      rcases hcase with hfalse | hrOk
      · simp at hfalse
      · subst hrOk
        cases rsOk with
        | true =>
          have hload : loadRefs (delete_student_embedding ⟨lf, rr, none, true⟩ sid true) true
              = (rr.filter (fun p => !(p.1 == sid))).filter
                  (fun p => decide (0 < p.2.length)) := rfl
          unfold predict_student_id at h
          dsimp only at h
          rw [hload] at h
          obtain ⟨ref, hmem⟩ := predictFromRefs_winner_mem h
          exact not_mem_filter_self rr sid ref (List.mem_filter.mp hmem).1
        | false =>
          have hload : loadRefs (delete_student_embedding ⟨lf, rr, none, true⟩ sid true) false
              = lf.filter (fun p => !(p.1 == sid)) := rfl
          unfold predict_student_id at h
          dsimp only at h
          rw [hload] at h
          obtain ⟨ref, hmem⟩ := predictFromRefs_winner_mem h
          exact not_mem_filter_self lf sid ref hmem
  · have hdel : delete_student_embedding
        { localFiles := [(5, [(1 : ℝ), 0])], remoteRows := [(5, [(1 : ℝ), 0])],
          cache := none, hasSupabase := true } 5 false
        = { localFiles := [], remoteRows := [(5, [(1 : ℝ), 0])],
            cache := none, hasSupabase := true } := rfl
    rw [hdel]
    unfold predict_student_id
    dsimp only
    have hload : loadRefs
        { localFiles := [], remoteRows := [(5, [(1 : ℝ), 0])],
          cache := none, hasSupabase := true } true
        = [(5, [(1 : ℝ), 0])] := rfl
    rw [hload]
    have hp : pairDist [(1 : ℝ), 0] [(1 : ℝ), 0]
        = some (cosineDist [(1 : ℝ), 0] [(1 : ℝ), 0], true) := pairDist_eq_cosine rfl
    have hdot : dotl [(1 : ℝ), 0] [(1 : ℝ), 0] = 1 := by
      norm_num [dotl]
    unfold predictFromRefs
    have hscan : scanBest [(5, [(1 : ℝ), 0])] [(1 : ℝ), 0]
        = some (5, cosineDist [(1 : ℝ), 0] [(1 : ℝ), 0], true) := scanBest_singleton hp
    rw [hscan]
    show (if (35 / 100 : ℝ) < cosineDist [(1 : ℝ), 0] [(1 : ℝ), 0] then none else some 5) = some 5
    rw [if_neg]
    rw [cosineDist_self, hdot]
    unfold eps
    norm_num

/-- C2 counterexample: student 5 is enrolled with embedding `[1, 0]`, the
process cache is warm, no remote client is configured. The profile is
deleted — the durable store is emptied — yet a query equal to the deleted
embedding still matches student 5, because the warm cache was never
invalidated. -/
theorem delete_warm_cache_stale_match_cex :
    (predict_student_id
        (delete_student_embedding
          { localFiles := [(5, [(1 : ℝ), 0])], remoteRows := [],
            cache := some [(5, [(1 : ℝ), 0])], hasSupabase := false } 5 true)
        (some [(1 : ℝ), 0]) true).2 = some 5 := by
  have hdel : delete_student_embedding
      { localFiles := [(5, [(1 : ℝ), 0])], remoteRows := [],
        cache := some [(5, [(1 : ℝ), 0])], hasSupabase := false } 5 true
      = { localFiles := [], remoteRows := [],
          cache := some [(5, [(1 : ℝ), 0])], hasSupabase := false } := rfl
  rw [hdel]
  unfold predict_student_id
  dsimp only
  have hload : loadRefs
      { localFiles := [], remoteRows := [],
        cache := some [(5, [(1 : ℝ), 0])], hasSupabase := false } true
      = [(5, [(1 : ℝ), 0])] := rfl
  rw [hload]
  have hp : pairDist [(1 : ℝ), 0] [(1 : ℝ), 0]
      = some (cosineDist [(1 : ℝ), 0] [(1 : ℝ), 0], true) := pairDist_eq_cosine rfl
  have hdot : dotl [(1 : ℝ), 0] [(1 : ℝ), 0] = 1 := by
    norm_num [dotl]
  unfold predictFromRefs
  have hscan : scanBest [(5, [(1 : ℝ), 0])] [(1 : ℝ), 0]
      = some (5, cosineDist [(1 : ℝ), 0] [(1 : ℝ), 0], true) := scanBest_singleton hp
  rw [hscan]
  show (if (35 / 100 : ℝ) < cosineDist [(1 : ℝ), 0] [(1 : ℝ), 0] then none else some 5) = some 5
  rw [if_neg]
  rw [cosineDist_self, hdot]
  unfold eps
  norm_num

/-- C10 (amended): `enroll_from_path` returns `True` iff an embedding was
successfully produced from the image (cv2 present, nonempty path, image
decoded, embedding computed) — independently of whether ANY durable write
succeeded: both the local save and the remote upsert are best-effort, and
in particular a remote-replica failure never changes the result. -/
theorem enroll_returns_embedding_produced :
    (∀ (st : FaceState) (sid : ℕ) (inp : EnrollInput) (lOk rOk : Bool),
        ((enroll_from_path st sid inp lOk rOk).2 = true ↔ ∃ e, inp = .embedding e))
    ∧ (∀ (st : FaceState) (sid : ℕ) (inp : EnrollInput) (lOk : Bool),
        (enroll_from_path st sid inp lOk false).2 = (enroll_from_path st sid inp lOk true).2) := by
  constructor
  · intro st sid inp lOk rOk
    cases inp <;> simp [enroll_from_path]
  · intro st sid inp lOk
    cases inp <;> rfl

/-- C10 counterexample: the claim reads "returns true iff an embedding was
successfully produced AND stored".  Here the embedding is produced but the
local save fails and no remote client is configured, so nothing at all is
stored — the state is returned unchanged with empty stores — and the
function still returns `True`. -/
theorem enroll_true_nothing_stored_cex :
    enroll_from_path
        { localFiles := [], remoteRows := [], cache := none, hasSupabase := false }
        7 (.embedding [(1 : ℝ), 0]) false false
      = ({ localFiles := [], remoteRows := [], cache := none, hasSupabase := false }, true) := rfl

/-! ## Schedule resolver (src/app.py, `attendance_recognize` lines 591-607)

`StudentTimetable` rows hold `'HH:MM'` strings; Python compares them
lexicographically, which for zero-padded times coincides with the numeric
order of `h * 100 + m`, so clock times are embedded as that numeral (e.g.
`'09:30'` ↦ 930).  The query filters by student and weekday and orders by
`start_time`; the loop picks the first row with
`r.start_time <= now_str <= r.end_time` (inclusive on both ends). -/

structure StudentTimetableRow where
  student_id : ℕ
  subject_id : ℕ
  /-- 0 = Monday … 6 = Sunday. -/
  weekday : ℕ
  start_time : ℕ
  end_time : ℕ
deriving DecidableEq

/-- The `order_by(StudentTimetable.start_time)` order. -/
def rowLe (a b : StudentTimetableRow) : Prop := a.start_time ≤ b.start_time

instance : DecidableRel rowLe := fun a b => Nat.decLe a.start_time b.start_time

instance : IsTotal StudentTimetableRow rowLe := ⟨fun x y => Nat.le_total x.start_time y.start_time⟩

instance : IsTrans StudentTimetableRow rowLe := ⟨fun _ _ _ => Nat.le_trans⟩

/-- The rows of `student_timetable` for this student and weekday, ordered
by start time (the SQL `filter_by(student_id=..., weekday=...)
.order_by(start_time)`). -/
def slotsFor (rows : List StudentTimetableRow) (sid wd : ℕ) : List StudentTimetableRow :=
  List.insertionSort rowLe (rows.filter (fun r => (r.student_id == sid) && (r.weekday == wd)))

/-- The slot-selection loop: the first ordered row whose interval
`[start_time, end_time]` contains `now`, inclusive on both ends. -/
def currentSlot (rows : List StudentTimetableRow) (sid wd now : ℕ) :
    Option StudentTimetableRow :=
  (slotsFor rows sid wd).find? (fun r => decide (r.start_time ≤ now) && decide (now ≤ r.end_time))

theorem find?_sorted_first {p : StudentTimetableRow → Bool} :
    ∀ l : List StudentTimetableRow, List.Sorted rowLe l → ∀ r, l.find? p = some r →
      ∀ r' ∈ l, p r' = true → rowLe r r' := by
  intro l
  induction l with
  | nil =>
    intro _ r h
    cases h
  | cons x xs ih =>
    intro hs r hfind r' hr' hp'
    by_cases hp : p x = true
    · rw [List.find?_cons_of_pos _ hp, Option.some.injEq] at hfind
      subst hfind
      rcases List.mem_cons.mp hr' with h' | h'
      · exact h' ▸ Nat.le_refl _
      · exact List.rel_of_sorted_cons hs r' h'
    · rw [List.find?_cons_of_neg _ (by simpa using hp)] at hfind
      rcases List.mem_cons.mp hr' with h' | h'
      · exact absurd (h' ▸ hp') hp
      · exact ih hs.of_cons r hfind r' h' hp'

theorem mem_slotsFor {rows : List StudentTimetableRow} {sid wd : ℕ} {r : StudentTimetableRow} :
    r ∈ slotsFor rows sid wd ↔ r ∈ rows ∧ r.student_id = sid ∧ r.weekday = wd := by
  unfold slotsFor
  rw [(List.perm_insertionSort rowLe _).mem_iff, List.mem_filter]
  simp

/-- C6: the schedule resolver keeps only the given identity's slots on the
given weekday and among those returns one that contains the clock time
inclusively on both ends and whose start time is minimal among all
containing slots (it is the first such slot in start-time order); when no
slot contains the time it returns `none` as a normal outcome.  On slots
`[(Mon,09:00,10:00,Subj 10), (Mon,10:00,11:00,Subj 20)]` (times as
`h * 100 + m`): 09:30 resolves to subject 10; 10:00 resolves to the first
slot, whose interval includes that boundary; 12:00 resolves to none. -/
theorem schedule_resolver_first_containing_slot :
    (∀ (rows : List StudentTimetableRow) (sid wd now : ℕ) (r : StudentTimetableRow),
        currentSlot rows sid wd now = some r →
          r ∈ rows ∧ r.student_id = sid ∧ r.weekday = wd ∧
          r.start_time ≤ now ∧ now ≤ r.end_time ∧
          (∀ r' ∈ rows, r'.student_id = sid → r'.weekday = wd →
            r'.start_time ≤ now → now ≤ r'.end_time → r.start_time ≤ r'.start_time))
    ∧ (∀ (rows : List StudentTimetableRow) (sid wd now : ℕ),
        currentSlot rows sid wd now = none →
          ∀ r' ∈ rows, r'.student_id = sid → r'.weekday = wd →
            ¬(r'.start_time ≤ now ∧ now ≤ r'.end_time))
    ∧ currentSlot [⟨1, 10, 0, 900, 1000⟩, ⟨1, 20, 0, 1000, 1100⟩] 1 0 930
        = some ⟨1, 10, 0, 900, 1000⟩
    ∧ currentSlot [⟨1, 10, 0, 900, 1000⟩, ⟨1, 20, 0, 1000, 1100⟩] 1 0 1000
        = some ⟨1, 10, 0, 900, 1000⟩
    ∧ ((900 : ℕ) ≤ 1000 ∧ (1000 : ℕ) ≤ 1000)
    ∧ currentSlot [⟨1, 10, 0, 900, 1000⟩, ⟨1, 20, 0, 1000, 1100⟩] 1 0 1200 = none := by
  refine ⟨?_, ?_, by decide, by decide, by decide, by decide⟩
  · intro rows sid wd now r h
    unfold currentSlot at h
    have hmem := mem_slotsFor.mp (List.mem_of_find?_eq_some h)
    have hp := List.find?_some h
    rw [Bool.and_eq_true, decide_eq_true_eq, decide_eq_true_eq] at hp
    refine ⟨hmem.1, hmem.2.1, hmem.2.2, hp.1, hp.2, ?_⟩
    intro r' hr' hsid hwd hst hen
    have hr'mem : r' ∈ slotsFor rows sid wd := mem_slotsFor.mpr ⟨hr', hsid, hwd⟩
    have hp' : (decide (r'.start_time ≤ now) && decide (now ≤ r'.end_time)) = true := by
      rw [Bool.and_eq_true, decide_eq_true_eq, decide_eq_true_eq]
      exact ⟨hst, hen⟩
    exact find?_sorted_first _ (List.sorted_insertionSort rowLe _) r h r' hr'mem hp'
  · intro rows sid wd now h r' hr' hsid hwd hcontain
    unfold currentSlot at h
    have := List.find?_eq_none.mp h r' (mem_slotsFor.mpr ⟨hr', hsid, hwd⟩)
    rw [Bool.and_eq_true, decide_eq_true_eq, decide_eq_true_eq] at this
    exact this hcontain

/-! ## Attendance ledger check (src/app.py, `attendance_recognize`
lines 609-660)

After a slot resolves, the code looks for an existing `Attendance` row
with the same student, subject and calendar date; if none exists it adds
one (`is_present=True, method='face'`), otherwise it reports "attendance
already marked" and adds nothing.  `func.date(timestamp)` is embedded as a
`date : ℕ` field. -/

structure AttendanceRecord where
  student_id : ℕ
  subject_id : ℕ
  class_id : Option ℕ
  /-- The calendar date `func.date(Attendance.timestamp)`. -/
  date : ℕ
  is_present : Bool
  method : String

/-- The `Attendance.query.filter(...)` existence check for
(student, subject, date). -/
def hasAttendanceRecord (ledger : List AttendanceRecord) (sid subj date : ℕ) : Bool :=
  ledger.any (fun a => (a.student_id == sid) && (a.subject_id == subj) && (a.date == date))

/-- The record-or-report step: returns the new ledger and whether the
outcome was "attendance already marked" (`true`) as opposed to a fresh
record being added (`false`). -/
def markAttendance (ledger : List AttendanceRecord) (sid subj : ℕ) (cls : Option ℕ)
    (date : ℕ) : List AttendanceRecord × Bool :=
  if hasAttendanceRecord ledger sid subj date then (ledger, true)
  else (ledger ++ [⟨sid, subj, cls, date, true, "face"⟩], false)

/-- Number of ledger records for the (student, subject, date) triple. -/
def countTriple (ledger : List AttendanceRecord) (sid subj date : ℕ) : ℕ :=
  ledger.countP (fun a => (a.student_id == sid) && (a.subject_id == subj) && (a.date == date))

theorem hasAttendanceRecord_mark (led : List AttendanceRecord) (sid subj : ℕ)
    (cls : Option ℕ) (date : ℕ) :
    hasAttendanceRecord (markAttendance led sid subj cls date).1 sid subj date = true := by
  unfold markAttendance
  by_cases h : hasAttendanceRecord led sid subj date = true
  · rw [if_pos h]
    exact h
  · rw [if_neg (by simpa using h)]
    unfold hasAttendanceRecord
    rw [List.any_append]
    simp

theorem countTriple_eq_zero_not_has {led : List AttendanceRecord} {sid subj date : ℕ}
    (h : countTriple led sid subj date = 0) :
    hasAttendanceRecord led sid subj date = false := by
  by_contra hc
  rw [Bool.not_eq_false] at hc
  unfold hasAttendanceRecord at hc
  rw [List.any_eq_true] at hc
  obtain ⟨a, ha, hpa⟩ := hc
  have : 0 < countTriple led sid subj date := by
    unfold countTriple
    rw [List.countP_pos_iff]
    exact ⟨a, ha, hpa⟩
  omega

/-- C7: if a ledger record already exists for (identity, subject, date)
the decision flow reports "already recorded" and leaves the ledger
unchanged; running the decision twice always reports "already recorded"
the second time with the ledger unchanged from the first run; starting
from a ledger with no record for the triple, two runs leave exactly one
record for it. -/
theorem attendance_marking_idempotent :
    (∀ (led : List AttendanceRecord) (sid subj : ℕ) (cls : Option ℕ) (date : ℕ),
        hasAttendanceRecord led sid subj date = true →
          markAttendance led sid subj cls date = (led, true))
    ∧ (∀ (led : List AttendanceRecord) (sid subj : ℕ) (cls : Option ℕ) (date : ℕ),
        markAttendance (markAttendance led sid subj cls date).1 sid subj cls date
          = ((markAttendance led sid subj cls date).1, true))
    ∧ (∀ (led : List AttendanceRecord) (sid subj : ℕ) (cls : Option ℕ) (date : ℕ),
        countTriple led sid subj date = 0 →
          countTriple
            (markAttendance (markAttendance led sid subj cls date).1 sid subj cls date).1
            sid subj date = 1) := by
  have hmark : ∀ (led : List AttendanceRecord) (sid subj : ℕ) (cls : Option ℕ) (date : ℕ),
      hasAttendanceRecord led sid subj date = true →
        markAttendance led sid subj cls date = (led, true) := by
    intro led sid subj cls date h
    unfold markAttendance
    rw [if_pos h]
  refine ⟨hmark, ?_, ?_⟩
  · intro led sid subj cls date
    exact hmark _ sid subj cls date (hasAttendanceRecord_mark led sid subj cls date)
  · intro led sid subj cls date h0
    have h1 : (markAttendance led sid subj cls date).1
        = led ++ [⟨sid, subj, cls, date, true, "face"⟩] := by
      unfold markAttendance
      rw [if_neg (by simpa using countTriple_eq_zero_not_has h0)]
    rw [hmark _ sid subj cls date (hasAttendanceRecord_mark led sid subj cls date), h1]
    unfold countTriple
    rw [List.countP_append]
    unfold countTriple at h0
    rw [h0]
    simp
